import Mathlib

/-!
Verification of the pair-trading scanner/backtester.

This file shallowly embeds the analytic core of the repository in Lean 4 and
proves properties of the embedding.  Python floats are modelled by `ℚ` (and by
`ℝ`/`ℂ` for the two functions that take real powers), a NaN cell of a pandas
series is modelled by `none : Option ℚ`, pandas timestamps are modelled by
integer day ordinals, and code that can raise is modelled in `Except`.

Sources embedded here:
  * `src/backtest/utils.py`   (`backtest_pair`, `is_good_entry`,
    `calculate_average_metrics`, `calculate_annualized_return`,
    `calculate_cagr`)
  * `src/backtest/single_pair.py`  (`generate_results`)
  * `src/scanner/index.py`    (the quality-gate chain of
    `find_cointegrated_pairs`)
  * `src/scanner/utils.py`    (the reversion-rate loop and the static OLS
    hedge-ratio fit of `calculate_spread_stats`)
-/

namespace PairTrading

/-- One row of the aligned price DataFrame handed to `backtest_pair`: the
date (integer day ordinal of the index), the two leg prices, the rolling
z-score cell (`none` models NaN), the `Hedge_Ratio` column, and the three
metric columns `Half_Life`, `Hurst`, `ADF_PValue` read by `is_good_entry`
(`none` models NaN). -/
structure Bar where
  date : ℤ
  price1 : ℚ
  price2 : ℚ
  zscore : Option ℚ
  hedgeRatio : ℚ
  halfLife : Option ℚ
  hurst : Option ℚ
  adfPValue : Option ℚ
deriving Repr, DecidableEq

/-- Position side: the LONG / SHORT tag of the position dict in
`backtest_pair`. -/
inductive Side where
  | long
  | short
deriving Repr, DecidableEq

/-- The open-position dict built by the entry branches of `backtest_pair`:
entry date, entry z-score, both leg prices and the hedge ratio at entry. -/
structure Position where
  side : Side
  entryDate : ℤ
  entryZscore : ℚ
  stock1Price : ℚ
  stock2Price : ℚ
  hedgeRatio : ℚ
deriving Repr, DecidableEq

/-- Exit reason recorded in a trade row (Mean Reversion / Stop Loss). -/
inductive ExitReason where
  | meanReversion
  | stopLoss
deriving Repr, DecidableEq

/-- One row of the trades DataFrame appended by `backtest_pair` on exit. -/
structure Trade where
  entryDate : ℤ
  exitDate : ℤ
  side : Side
  daysHeld : ℤ
  win : Bool
  entryZscore : ℚ
  exitZscore : ℚ
  entryStock1Price : ℚ
  exitStock1Price : ℚ
  entryStock2Price : ℚ
  exitStock2Price : ℚ
  stock1Shares : ℚ
  stock2Shares : ℚ
  stock1Capital : ℚ
  stock2Capital : ℚ
  totalCapital : ℚ
  hedgeRatio : ℚ
  pnl : ℚ
  pnlPercent : ℚ
  exitReason : ExitReason
deriving Repr, DecidableEq

/-- `BacktestUtils.is_good_entry` (src/backtest/utils.py lines 126-174):
reject when any of `Half_Life`, `Hurst`, `ADF_PValue` is NaN, then require
`5 <= half_life <= 30`, `hurst < 0.5` and `adf_p_value < 0.05`. -/
def is_good_entry (b : Bar) : Bool :=
  match b.halfLife, b.hurst, b.adfPValue with
  | some halfLife, some hurst, some adfPValue =>
      if ¬ (5 ≤ halfLife ∧ halfLife ≤ 30) then false
      else if (0.5 : ℚ) ≤ hurst then false
      else if (0.05 : ℚ) ≤ adfPValue then false
      else true
  | _, _, _ => false

/-- The exit decision of `backtest_pair` (lines 48-68) for an open position
and a defined z-score, with the branches in source order: mean-reversion
first, then the additive 1.5-unit stop loss. -/
def exitReasonAt (p : Position) (z : ℚ) : Option ExitReason :=
  if p.side = Side.long ∧ 0 ≤ z then some ExitReason.meanReversion
  else if p.side = Side.short ∧ z ≤ 0 then some ExitReason.meanReversion
  else if p.side = Side.long ∧ z < p.entryZscore - (1.5 : ℚ) then some ExitReason.stopLoss
  else if p.side = Side.short ∧ p.entryZscore + (1.5 : ℚ) < z then some ExitReason.stopLoss
  else none

/-- The trade row built by the exit branch of `backtest_pair` (lines 70-118):
capital split `capital / (1 + |hedge_ratio|)` for leg 1 and the remainder for
leg 2, share counts from entry prices, leg PnL signed by which leg was bought
or sold, and percent PnL relative to `capital`. -/
def mkTrade (capital : ℚ) (p : Position) (b : Bar) (z : ℚ) (reason : ExitReason) : Trade :=
  let hedge := |p.hedgeRatio|
  let stock1Allocation := capital / (1 + hedge)
  let stock2Allocation := capital - stock1Allocation
  let stock1Shares := stock1Allocation / p.stock1Price
  let stock2Shares := stock2Allocation / p.stock2Price
  let stock1Pnl :=
    if p.side = Side.long then stock1Shares * (p.stock1Price - b.price1)
    else stock1Shares * (b.price1 - p.stock1Price)
  let stock2Pnl :=
    if p.side = Side.long then stock2Shares * (b.price2 - p.stock2Price)
    else stock2Shares * (p.stock2Price - b.price2)
  let totalPnl := stock1Pnl + stock2Pnl
  { entryDate := p.entryDate
    exitDate := b.date
    side := p.side
    daysHeld := b.date - p.entryDate
    win := decide (0 < totalPnl)
    entryZscore := p.entryZscore
    exitZscore := z
    entryStock1Price := p.stock1Price
    exitStock1Price := b.price1
    entryStock2Price := p.stock2Price
    exitStock2Price := b.price2
    stock1Shares := stock1Shares
    stock2Shares := stock2Shares
    stock1Capital := stock1Allocation
    stock2Capital := stock2Allocation
    totalCapital := stock1Allocation + stock2Allocation
    hedgeRatio := hedge
    pnl := totalPnl
    pnlPercent := totalPnl / capital * 100
    exitReason := reason }

/-- One iteration of the bar loop of `backtest_pair` (lines 12-120): a NaN
z-score is skipped; from flat, enter long on `zscore <= -entry_threshold`
(resp. short on `zscore >= entry_threshold`) but only if `is_good_entry`
also passes; from an open position, exit per `exitReasonAt` and emit the
trade row, returning to flat. -/
def step (entryThreshold capital : ℚ) (pos : Option Position) (b : Bar) :
    Option Position × Option Trade :=
  match b.zscore with
  | none => (pos, none)
  | some z =>
      match pos with
      | none =>
          if z ≤ -entryThreshold ∧ is_good_entry b then
            (some { side := Side.long, entryDate := b.date, entryZscore := z,
                    stock1Price := b.price1, stock2Price := b.price2,
                    hedgeRatio := b.hedgeRatio }, none)
          else if entryThreshold ≤ z ∧ is_good_entry b then
            (some { side := Side.short, entryDate := b.date, entryZscore := z,
                    stock1Price := b.price1, stock2Price := b.price2,
                    hedgeRatio := b.hedgeRatio }, none)
          else (none, none)
      | some p =>
          match exitReasonAt p z with
          | some reason => (none, some (mkTrade capital p b z reason))
          | none => (some p, none)

/-- The bar loop of `backtest_pair`, threading the optional open position and
collecting emitted trade rows in order. -/
def run (entryThreshold capital : ℚ) : Option Position → List Bar → List Trade
  | _, [] => []
  | pos, b :: rest =>
      match step entryThreshold capital pos b with
      | (newPos, none) => run entryThreshold capital newPos rest
      | (newPos, some t) => t :: run entryThreshold capital newPos rest

/-- `BacktestUtils.backtest_pair` (src/backtest/utils.py lines 6-122): iterate
from index `zscore_window` to the end of the DataFrame and return the trades
ledger.  An open position at the end of the series is dropped. -/
def backtest_pair (df : List Bar) (zscore_window : ℕ) (entry_threshold capital : ℚ) :
    List Trade :=
  run entry_threshold capital none (df.drop zscore_window)

/-- Statistics of a candidate pair at the point where `find_cointegrated_pairs`
(src/scanner/index.py lines 103-131) runs its quality filters: best
cointegration p-value, independent spread ADF p-value, half-life (`none`
models Python `None`), Hurst exponent, z-score zero-crossing count, reversion
rate (`none` models `None`) and current z-score. -/
structure PairStats where
  cointPValue : ℚ
  spreadAdfPValue : ℚ
  halfLife : Option ℚ
  hurst : ℚ
  zeroCrossings : ℤ
  reversionRate : Option ℚ
  currentZscore : ℚ
deriving Repr, DecidableEq

/-- The half-life test of quality filter 3:
`half_life is None or half_life < 10 or half_life > 30`. -/
def half_life_fails : Option ℚ → Bool
  | none => true
  | some hl => decide (hl < 10) || decide (30 < hl)

/-- The reversion-rate test of quality filter 6:
`reversion_rate is not None and reversion_rate < 75`. -/
def reversion_rate_fails : Option ℚ → Bool
  | none => false
  | some r => decide (r < 75)

/-- The quality-gate chain of `find_cointegrated_pairs` (src/scanner/index.py
lines 103-131): the seven `continue` filters in source order, short-circuiting
on the first failure; `true` means the pair is appended to the results. -/
def quality_gate (s : PairStats) : Bool :=
  if (0.01 : ℚ) < s.cointPValue then false
  else if (0.05 : ℚ) < s.spreadAdfPValue then false
  else if half_life_fails s.halfLife then false
  else if (0.5 : ℚ) ≤ s.hurst then false
  else if s.zeroCrossings < 15 then false
  else if reversion_rate_fails s.reversionRate then false
  else if (3.5 : ℚ) < |s.currentZscore| then false
  else true

/-- The static OLS fit of `calculate_spread_stats` (src/scanner/utils.py lines
106-114): `np.linalg.lstsq` on the design matrix `[x, 1]` against `y`.  For a
full-rank design (nonzero normal-equations determinant) `lstsq` returns the
unique least-squares solution, given in closed form by the normal equations;
`none` models the rank-deficient case, where the claim does not apply. -/
def ols_fit (xs ys : List ℚ) : Option (ℚ × ℚ) :=
  let n : ℚ := xs.length
  let sx := xs.sum
  let sy := ys.sum
  let sxx := (xs.map (fun v => v * v)).sum
  let sxy := (List.zipWith (fun a b => a * b) xs ys).sum
  let det := n * sxx - sx * sx
  if det = 0 then none
  else some ((n * sxy - sx * sy) / det, (sxx * sy - sx * sxy) / det)

/-- A Python value stored in a backtest-result dict: a finite number (int or
float), an infinite float, `None`, or a string. -/
inductive PyVal where
  | num (q : ℚ)
  | infty
  | negInfty
  | null
  | str (s : String)
deriving Repr, DecidableEq

/-- Python `isinstance(v, (int, float))`: numbers and infinities are numeric,
`None` and strings are not. -/
def PyVal.isNumeric : PyVal → Bool
  | num _ => true
  | infty => true
  | negInfty => true
  | null => false
  | str _ => false

/-- A Python dict with string keys in insertion order, as used for backtest
results. -/
abbrev PyRecord := List (String × PyVal)

/-- The `valid_values` comprehension of `calculate_average_metrics`
(src/backtest/utils.py lines 193-199): values of `key` across results that are
not zero, not `None` and not infinite.  Non-numeric values never qualify. -/
def valid_values (results : List PyRecord) (k : String) : List ℚ :=
  results.filterMap (fun r =>
    match (r.lookup k).getD PyVal.null with
    | PyVal.num q => if q ≠ 0 then some q else none
    | _ => none)

/-- `BacktestUtils.calculate_average_metrics` (src/backtest/utils.py lines
177-208): keys are taken from the first result minus `Ticker1`/`Ticker2`; a
key whose first-result value is numeric is averaged over `valid_values`
(defaulting to 0 when none qualify), any other key passes the first result
value through. -/
def calculate_average_metrics (results : List PyRecord) : PyRecord :=
  match results with
  | [] => []
  | r0 :: rest =>
      let keys := (r0.map Prod.fst).filter (fun k => ¬ (k = "Ticker1" ∨ k = "Ticker2"))
      keys.map (fun k =>
        (k,
          if ((r0.lookup k).getD PyVal.null).isNumeric then
            let vals := valid_values (r0 :: rest) k
            if 0 < vals.length then PyVal.num (vals.sum / vals.length) else PyVal.num 0
          else (r0.lookup k).getD PyVal.null))

/-- The `future_z = rolling_zscore.iloc[i+1:i+21]` slice of the reversion-rate
loop in `calculate_spread_stats` (src/scanner/utils.py lines 155-170). -/
def futureWindow (zs : List (Option ℚ)) (i : ℕ) : List (Option ℚ) :=
  (zs.drop (i + 1)).take 20

/-- The success test of the reversion-rate loop:
`(z > 0 and future_z.min() < 0.5) or (z < 0 and future_z.max() > -0.5)`.
A pandas min/max skips NaN, so the test asks for some defined future value
strictly below 0.5 (resp. strictly above -0.5). -/
def revSuccess (z : ℚ) (future : List (Option ℚ)) : Bool :=
  (decide (0 < z) && future.any (fun o => match o with
    | some v => decide (v < (0.5 : ℚ))
    | none => false)) ||
  (decide (z < 0) && future.any (fun o => match o with
    | some v => decide ((-0.5 : ℚ) < v)
    | none => false))

/-- The occurrence test of the reversion-rate loop:
`abs(z) >= zscore_entry_threshold and not np.isnan(z)` at index `i`. -/
def occursAt (zs : List (Option ℚ)) (thr : ℚ) (i : ℕ) : Bool :=
  match zs[i]? with
  | some (some z) => decide (thr ≤ |z|)
  | _ => false

/-- Success test at index `i`, reading the z-score as the loop does. -/
def succeedsAtCode (zs : List (Option ℚ)) (i : ℕ) : Bool :=
  match zs[i]? with
  | some (some z) => revSuccess z (futureWindow zs i)
  | _ => false

/-- The counter pass of the reversion-rate loop
`for i in range(zscore_window, len(rolling_zscore) - 10)` accumulating
`(crosses, successes)`. -/
def revCounts (zs : List (Option ℚ)) (window : ℕ) (thr : ℚ) : ℕ × ℕ :=
  (List.range' window (zs.length - 10 - window)).foldl
    (fun acc i =>
      if occursAt zs thr i then
        (acc.1 + 1, if succeedsAtCode zs i then acc.2 + 1 else acc.2)
      else acc)
    (0, 0)

/-- The reversion rate of `calculate_spread_stats` (src/scanner/utils.py lines
155-170): `successes / crosses * 100` when there was at least one threshold
crossing, `None` otherwise. -/
def reversion_rate (zs : List (Option ℚ)) (window : ℕ) (thr : ℚ) : Option ℚ :=
  let counts := revCounts zs window thr
  if 0 < counts.1 then some ((counts.2 : ℚ) / (counts.1 : ℚ) * 100) else none

/-- Success test written over explicit future indices `i+1 .. i+20` instead of
a slice; proved equal to `succeedsAtCode` below. -/
def succeedsAtSpec (zs : List (Option ℚ)) (i : ℕ) : Bool :=
  match zs[i]? with
  | some (some z) =>
      (decide (0 < z) && (List.range' (i + 1) 20).any (fun j =>
        match zs[j]? with
        | some (some v) => decide (v < (0.5 : ℚ))
        | _ => false)) ||
      (decide (z < 0) && (List.range' (i + 1) 20).any (fun j =>
        match zs[j]? with
        | some (some v) => decide ((-0.5 : ℚ) < v)
        | _ => false))
  | _ => false

/-- Modelled from the claim wording for comparison: occurrences range over
EVERY bar of the rolling z-score series (not just the loop range of the
source), successes within the next 20 bars, rate absent exactly on zero
occurrences. -/
def reversion_rate_claim (zs : List (Option ℚ)) (thr : ℚ) : Option ℚ :=
  let occ := (List.range zs.length).countP (fun i => occursAt zs thr i)
  let succ := (List.range zs.length).countP
    (fun i => occursAt zs thr i && succeedsAtSpec zs i)
  if 0 < occ then some ((succ : ℚ) / (occ : ℚ) * 100) else none

/-- The amended statement: identical to the claim wording except that
occurrences range only over the loop indices `window <= i < len - 10`. -/
def reversion_rate_amended (zs : List (Option ℚ)) (window : ℕ) (thr : ℚ) : Option ℚ :=
  let idxs := List.range' window (zs.length - 10 - window)
  let occ := idxs.countP (fun i => occursAt zs thr i)
  let succ := idxs.countP (fun i => occursAt zs thr i && succeedsAtSpec zs i)
  if 0 < occ then some ((succ : ℚ) / (occ : ℚ) * 100) else none

/-- Python `**` on floats: a negative base with non-integral exponent is
promoted to complex and evaluated on the principal branch, which is exactly
`Complex.cpow`; for positive bases the complex power is real and agrees with
the float result. -/
noncomputable def pyFloatPow (b e : ℝ) : ℂ := (b : ℂ) ^ (e : ℂ)

/-- `BacktestUtils.calculate_annualized_return` (src/backtest/utils.py lines
243-256), with the intermediate variables `total_days`, `years` and
`total_return` inlined.  The date index is modelled by its integer day
ordinals.  Note the source has no positive-final-value guard before the
fractional power. -/
noncomputable def calculate_annualized_return (total_pnl initial_capital : ℝ)
    (date_index : List ℤ) : ℂ :=
  if initial_capital ≤ 0 ∨ date_index = [] then 0
  else if date_index.getLast?.getD 0 - date_index.head?.getD 0 ≤ 0 then 0
  else
    (pyFloatPow (1 + total_pnl / initial_capital)
      (1 / (((date_index.getLast?.getD 0 - date_index.head?.getD 0 : ℤ) : ℝ) / 365.25)) - 1)
      * 100

/-- `BacktestUtils.calculate_cagr` (src/backtest/utils.py lines 258-285), with
intermediates inlined; this sibling does guard `final_value <= 0` (and
`years <= 0`) and returns 0 there. -/
noncomputable def calculate_cagr (total_pnl initial_capital : ℝ) (date_index : List ℤ) : ℝ :=
  if initial_capital ≤ 0 ∨ date_index = [] then 0
  else if date_index.getLast?.getD 0 - date_index.head?.getD 0 ≤ 0 then 0
  else if initial_capital + total_pnl ≤ 0 ∨
      (((date_index.getLast?.getD 0 - date_index.head?.getD 0 : ℤ) : ℝ) / 365.25) ≤ 0 then 0
  else
    (Real.rpow ((initial_capital + total_pnl) / initial_capital)
      (1 / (((date_index.getLast?.getD 0 - date_index.head?.getD 0 : ℤ) : ℝ) / 365.25)) - 1)
      * 100

/-- Column access `trades_df[name]` of a DataFrame built by
`pd.DataFrame(trades)`: when `trades` is the empty list the DataFrame has no
columns at all and pandas raises `KeyError`. -/
def dfColumn (name : String) (trades : List Trade) (f : Trade → ℚ) :
    Except String (List ℚ) :=
  if trades.isEmpty then Except.error ("KeyError: " ++ name)
  else Except.ok (trades.map f)

/-- `SinglePairBacktest.generate_results` (src/backtest/single_pair.py lines
241-269).  With zero trades the guarded fields default to 0 (and
`max_drawdown`, `annualized_return` to 0), but `Winning Trades`,
`Losing Trades` and `Total PnL ($)` access the `Win` / `PnL ($)` columns
unguarded, which raises `KeyError` on the column-less empty DataFrame.  With a
non-empty ledger the source calls
`calculate_max_drawdown` on the PnL column alone, with its required
`initial_capital` argument missing, so Python raises `TypeError` before the
dict is built; the embedding reflects both failure modes. -/
def generate_results (ticker1 ticker2 : String) (trades : List Trade) (capital : ℚ)
    (dates : List ℤ) (hedge_ratio final_zscore : PyVal) :
    Except String (List (String × PyVal)) :=
  if trades.isEmpty then
    (dfColumn "Win" trades (fun t => if t.win then (1 : ℚ) else 0)).bind (fun wins =>
    (dfColumn "PnL ($)" trades Trade.pnl).bind (fun pnls =>
      Except.ok
        [("Ticker1", PyVal.str ticker1),
         ("Ticker2", PyVal.str ticker2),
         ("Total Trades", PyVal.num trades.length),
         ("Winning Trades", PyVal.num wins.sum),
         ("Losing Trades", PyVal.num ((trades.length : ℚ) - wins.sum)),
         ("Average trade duration (days)", PyVal.num 0),
         ("Win Rate (%)", PyVal.num 0),
         ("Profit factor", PyVal.num 0),
         ("Total PnL ($)", PyVal.num pnls.sum),
         ("Compound Annual Growth Rate (%)", PyVal.num 0),
         ("Annualized Return (%)", PyVal.num 0),
         ("Average PnL per Trade ($)", PyVal.num 0),
         ("Max Drawdown ($)", PyVal.num 0),
         ("Max Drawdown (%)", PyVal.num 0),
         ("Hedge Ratio", hedge_ratio),
         ("Final Z-Score", final_zscore),
         ("Sharpe ratio", PyVal.num 0),
         ("Sortino ratio", PyVal.num 0),
         ("Calmar ratio", PyVal.num 0),
         ("Volatility", PyVal.num 0)]))
  else
    Except.error "TypeError: calculate_max_drawdown missing initial_capital"

/-- A bar whose z-score crosses the long entry threshold but whose `Half_Life`
cell is NaN, so `is_good_entry` rejects it. -/
def cBarBad : Bar :=
  { date := 0, price1 := 10, price2 := 20, zscore := some (-3), hedgeRatio := 1,
    halfLife := none, hurst := some (0.4 : ℚ), adfPValue := some (0.01 : ℚ) }

/-- The same bar with a half-life of 15 days, which `is_good_entry` accepts. -/
def cBarGood : Bar :=
  { cBarBad with halfLife := some 15 }

/-- A follow-up bar at the mean, exiting any open long position. -/
def cBarExit : Bar :=
  { date := 1, price1 := 11, price2 := 20, zscore := some 0, hedgeRatio := 1,
    halfLife := some 15, hurst := some (0.4 : ℚ), adfPValue := some (0.01 : ℚ) }


/-- Concrete entry bar used by witnesses. -/
def wBarEntry : Bar :=
  { date := 0, price1 := 10, price2 := 20, zscore := some (-3), hedgeRatio := 1,
    halfLife := some 15, hurst := some 0, adfPValue := some 0 }

/-- Concrete exit bar used by witnesses. -/
def wBarExit : Bar :=
  { date := 1, price1 := 11, price2 := 20, zscore := some 0, hedgeRatio := 1,
    halfLife := some 15, hurst := some 0, adfPValue := some 0 }

/-- The position opened at `wBarEntry`. -/
def wPos : Position :=
  { side := Side.long, entryDate := 0, entryZscore := -3, stock1Price := 10,
    stock2Price := 20, hedgeRatio := 1 }

/-- The trade closed at `wBarExit`. -/
def wTrade : Trade := mkTrade 100 wPos wBarExit 0 ExitReason.meanReversion

/-- Concrete backtest-result records used for claim C8. -/
def cRecA : PyRecord := [("Ticker1", PyVal.str "AAA"), ("M", PyVal.num 2)]

def cRecB : PyRecord := [("Ticker1", PyVal.str "BBB"), ("M", PyVal.num 4)]

/-! Theorems. -/

/-- Helper: when `step` emits a trade, a position was open, the z-score was
defined, the exit rule fired, the trade is the `mkTrade` row and the new
state is flat. -/
theorem step_emits (thr cap : ℚ) (pos : Option Position) (b : Bar) (newPos : Option Position)
    (t : Trade) (h : step thr cap pos b = (newPos, some t)) :
    ∃ p z reason, pos = some p ∧ b.zscore = some z ∧ exitReasonAt p z = some reason ∧
      t = mkTrade cap p b z reason ∧ newPos = none := by
  cases hz : b.zscore with
  | none => simp only [step, hz] at h; simp only [Prod.mk.injEq] at h; exact absurd h.2 (by simp)
  | some z =>
    cases pos with
    | none =>
      simp only [step, hz] at h
      split_ifs at h <;> simp only [Prod.mk.injEq] at h <;> exact absurd h.2 (by simp)
    | some p =>
      cases hr : exitReasonAt p z with
      | none =>
        simp only [step, hz] at h; simp only [hr] at h
        simp only [Prod.mk.injEq] at h; exact absurd h.2 (by simp)
      | some reason =>
        simp only [step, hz] at h; simp only [hr] at h
        simp only [Prod.mk.injEq, Option.some.injEq] at h
        exact ⟨p, z, reason, rfl, rfl, hr, h.2.symm, h.1.symm⟩

/-- Helper: the position after a step is either the carried-over open position
or a fresh entry dated at the current bar. -/
theorem step_newPos (thr cap : ℚ) (pos : Option Position) (b : Bar) (q : Position)
    (tOpt : Option Trade) (h : step thr cap pos b = (some q, tOpt)) :
    pos = some q ∨ (pos = none ∧ q.entryDate = b.date) := by
  cases hz : b.zscore with
  | none => simp only [step, hz] at h; simp only [Prod.mk.injEq] at h; exact Or.inl h.1
  | some z =>
    cases pos with
    | none =>
      simp only [step, hz] at h
      split_ifs at h <;> simp only [Prod.mk.injEq, Option.some.injEq] at h
      · exact Or.inr ⟨rfl, by rw [← h.1]⟩
      · exact Or.inr ⟨rfl, by rw [← h.1]⟩
      · exact absurd h.1 (by simp)
    | some p =>
      cases hr : exitReasonAt p z with
      | none =>
        simp only [step, hz] at h; simp only [hr] at h
        simp only [Prod.mk.injEq, Option.some.injEq] at h
        exact Or.inl (by rw [h.1])
      | some reason =>
        simp only [step, hz] at h; simp only [hr] at h
        simp only [Prod.mk.injEq] at h; exact absurd h.1 (by simp)

/-- Helper invariant for the bar loop: over date-sorted bars, every emitted
trade closes after it opens, exits at some bar date, opens at a bar date or at
the carried position, and consecutive trades are strictly separated. -/
theorem run_ordered (thr cap : ℚ) :
    ∀ (bars : List Bar) (pos : Option Position),
      List.Pairwise (fun a b => a.date < b.date) bars →
      (∀ p, pos = some p → ∀ b ∈ bars, p.entryDate < b.date) →
      (∀ t ∈ run thr cap pos bars,
          t.entryDate < t.exitDate ∧
          (∃ b ∈ bars, t.exitDate = b.date) ∧
          ((∃ b ∈ bars, t.entryDate = b.date) ∨ ∃ p, pos = some p ∧ t.entryDate = p.entryDate)) ∧
      List.Pairwise (fun s t => s.exitDate < t.entryDate) (run thr cap pos bars) := by
  intro bars
  induction bars with
  | nil => intro pos _ _; simp [run]
  | cons b rest ih =>
    intro pos hsort hp
    obtain ⟨hb, hrest⟩ := List.pairwise_cons.mp hsort
    rw [run]
    cases hstep : step thr cap pos b with
    | mk newPos tOpt =>
      cases tOpt with
      | none =>
        have hnp : ∀ p, newPos = some p → ∀ b2 ∈ rest, p.entryDate < b2.date := by
          intro p hp2 b2 hb2
          rw [hp2] at hstep
          rcases step_newPos thr cap pos b p none hstep with hcase | ⟨_, hdate⟩
          · exact hp p hcase b2 (List.mem_cons_of_mem b hb2)
          · rw [hdate]; exact hb b2 hb2
        obtain ⟨ihA, ihP⟩ := ih newPos hrest hnp
        refine ⟨fun t ht => ?_, ihP⟩
        obtain ⟨h1, ⟨b2, hb2, h2⟩, h3⟩ := ihA t ht
        refine ⟨h1, ⟨b2, List.mem_cons_of_mem b hb2, h2⟩, ?_⟩
        rcases h3 with ⟨b3, hb3, h3⟩ | ⟨p, hp3, h3⟩
        · exact Or.inl ⟨b3, List.mem_cons_of_mem b hb3, h3⟩
        · rw [hp3] at hstep
          rcases step_newPos thr cap pos b p none hstep with hcase | ⟨_, hdate⟩
          · exact Or.inr ⟨p, hcase, h3⟩
          · exact Or.inl ⟨b, List.mem_cons_self b rest, by rw [h3, hdate]⟩
      | some t =>
        obtain ⟨p, z, reason, hpos, hz, hr, htr, hnew⟩ :=
          step_emits thr cap pos b newPos t hstep
        subst hnew hpos htr
        obtain ⟨ihA, ihP⟩ := ih none hrest (by intro p hp2; exact absurd hp2 (by simp))
        have hentry : (mkTrade cap p b z reason).entryDate = p.entryDate := rfl
        have hexit : (mkTrade cap p b z reason).exitDate = b.date := rfl
        constructor
        · intro t2 ht2
          rcases List.mem_cons.mp ht2 with heq | hmem
          · subst heq
            refine ⟨?_, ⟨b, List.mem_cons_self b rest, hexit⟩,
              Or.inr ⟨p, rfl, hentry⟩⟩
            rw [hentry, hexit]
            exact hp p rfl b (List.mem_cons_self b rest)
          · obtain ⟨h1, ⟨b2, hb2, h2⟩, h3⟩ := ihA t2 hmem
            refine ⟨h1, ⟨b2, List.mem_cons_of_mem b hb2, h2⟩, ?_⟩
            rcases h3 with ⟨b3, hb3, h3⟩ | ⟨q, hq, _⟩
            · exact Or.inl ⟨b3, List.mem_cons_of_mem b hb3, h3⟩
            · exact absurd hq (by simp)
        · refine List.pairwise_cons.mpr ⟨fun t2 ht2 => ?_, ihP⟩
          obtain ⟨_, _, h3⟩ := ihA t2 ht2
          rcases h3 with ⟨b3, hb3, h3⟩ | ⟨q, hq, _⟩
          · rw [hexit, h3]; exact hb b3 hb3
          · exact absurd hq (by simp)

/-- Helper: every trade in a run is an `mkTrade` row. -/
theorem mem_run (thr cap : ℚ) :
    ∀ (bars : List Bar) (pos : Option Position) (t : Trade),
      t ∈ run thr cap pos bars → ∃ p b z reason, t = mkTrade cap p b z reason := by
  intro bars
  induction bars with
  | nil => intro pos t ht; simp [run] at ht
  | cons b rest ih =>
    intro pos t ht
    cases hstep : step thr cap pos b with
    | mk newPos tOpt =>
      cases tOpt with
      | none =>
        simp only [run, hstep] at ht
        exact ih newPos t ht
      | some t2 =>
        simp only [run, hstep] at ht
        rcases List.mem_cons.mp ht with heq | hmem
        · obtain ⟨p, z, reason, _, _, _, htr, _⟩ := step_emits thr cap pos b newPos t2 hstep
          exact ⟨p, b, z, reason, heq ▸ htr⟩
        · exact ih newPos t hmem

/-- Helper: the capital split and bookkeeping identities of a trade row. -/
theorem mkTrade_cap_props (cap : ℚ) (p : Position) (b : Bar) (z : ℚ) (r : ExitReason)
    (hcap : 0 < cap) :
    0 < (mkTrade cap p b z r).stock1Capital ∧
    ((mkTrade cap p b z r).hedgeRatio = 0 → (mkTrade cap p b z r).stock2Capital = 0) ∧
    ((mkTrade cap p b z r).hedgeRatio ≠ 0 → 0 < (mkTrade cap p b z r).stock2Capital) ∧
    (mkTrade cap p b z r).stock1Capital + (mkTrade cap p b z r).stock2Capital = cap ∧
    (mkTrade cap p b z r).totalCapital = cap ∧
    (mkTrade cap p b z r).stock1Shares
      = (mkTrade cap p b z r).stock1Capital / (mkTrade cap p b z r).entryStock1Price ∧
    (mkTrade cap p b z r).stock2Shares
      = (mkTrade cap p b z r).stock2Capital / (mkTrade cap p b z r).entryStock2Price ∧
    (mkTrade cap p b z r).pnlPercent = (mkTrade cap p b z r).pnl / cap * 100 := by
  have h0 : (0:ℚ) ≤ |p.hedgeRatio| := abs_nonneg _
  have h1 : (0:ℚ) < 1 + |p.hedgeRatio| := by linarith
  refine ⟨?_, ?_, ?_, ?_, ?_, rfl, rfl, rfl⟩
  · exact div_pos hcap h1
  · intro hz0
    show cap - cap / (1 + |p.hedgeRatio|) = 0
    have hz1 : |p.hedgeRatio| = 0 := hz0
    rw [hz1]
    norm_num
  · intro hz0
    show 0 < cap - cap / (1 + |p.hedgeRatio|)
    have hz1 : |p.hedgeRatio| ≠ 0 := hz0
    have hz2 : (0:ℚ) < |p.hedgeRatio| := lt_of_le_of_ne h0 (Ne.symm hz1)
    have : cap / (1 + |p.hedgeRatio|) < cap := div_lt_self hcap (by linarith)
    linarith
  · show cap / (1 + |p.hedgeRatio|) + (cap - cap / (1 + |p.hedgeRatio|)) = cap
    ring
  · show cap / (1 + |p.hedgeRatio|) + (cap - cap / (1 + |p.hedgeRatio|)) = cap
    ring

/-- Helper: evaluation of the witness backtest. -/
theorem backtest_eval : backtest_pair [wBarEntry, wBarExit] 0 2 100 = [wTrade] := by
  norm_num [backtest_pair, run, step, is_good_entry, exitReasonAt, wBarEntry, wBarExit,
    wPos, wTrade]

/-- Claim C6: while a position is open, exits are evaluated mean-reversion
first and stop-loss second; from a long position the trade exits with reason
MeanReversion whenever `zscore >= 0` and with reason StopLoss when
`zscore < 0` and `zscore < entryZscore - 1.5`, staying open otherwise; from a
short position it exits MeanReversion whenever `zscore <= 0` and StopLoss when
`zscore > 0` and `zscore > entryZscore + 1.5`; the stop distance is the
additive 1.5 z-score units. -/
theorem backtest_exit_rules (thr cap : ℚ) (p : Position) (b : Bar) (z : ℚ)
    (hz : b.zscore = some z) :
    (p.side = Side.long →
      (0 ≤ z →
        step thr cap (some p) b = (none, some (mkTrade cap p b z ExitReason.meanReversion))) ∧
      (z < 0 → z < p.entryZscore - (1.5 : ℚ) →
        step thr cap (some p) b = (none, some (mkTrade cap p b z ExitReason.stopLoss))) ∧
      (z < 0 → p.entryZscore - (1.5 : ℚ) ≤ z →
        step thr cap (some p) b = (some p, none))) ∧
    (p.side = Side.short →
      (z ≤ 0 →
        step thr cap (some p) b = (none, some (mkTrade cap p b z ExitReason.meanReversion))) ∧
      (0 < z → p.entryZscore + (1.5 : ℚ) < z →
        step thr cap (some p) b = (none, some (mkTrade cap p b z ExitReason.stopLoss))) ∧
      (0 < z → z ≤ p.entryZscore + (1.5 : ℚ) →
        step thr cap (some p) b = (some p, none))) := by
  constructor
  · intro hlong
    refine ⟨fun h0 => ?_, fun h0 hsl => ?_, fun h0 hsl => ?_⟩
    · simp [step, hz, exitReasonAt, hlong, h0]
    · simp [step, hz, exitReasonAt, hlong, not_le.mpr h0, hsl]
    · simp [step, hz, exitReasonAt, hlong, not_le.mpr h0, not_lt.mpr hsl]
  · intro hshort
    refine ⟨fun h0 => ?_, fun h0 hsl => ?_, fun h0 hsl => ?_⟩
    · simp [step, hz, exitReasonAt, hshort, h0]
    · simp [step, hz, exitReasonAt, hshort, not_le.mpr h0, hsl]
    · simp [step, hz, exitReasonAt, hshort, not_le.mpr h0, not_lt.mpr hsl]

-- C1 entry rules (amended)

/-- Witness for C6: a long position at the mean exits with reason
MeanReversion. -/
theorem backtest_exit_rules_witness :
    wPos.side = Side.long ∧ (0:ℚ) ≤ 0 ∧
      step 2 100 (some wPos) wBarExit =
        (none, some (mkTrade 100 wPos wBarExit 0 ExitReason.meanReversion)) :=
  ⟨rfl, le_refl 0, ((backtest_exit_rules 2 100 wPos wBarExit 0 rfl).1 rfl).1 (le_refl 0)⟩

/-- Counterexample for claim C1: at a bar whose z-score is -3 (beyond the
threshold 2) but whose half-life is NaN, `step` does NOT open a position, and
`backtest_pair` produces no trade where the claim predicts one; restoring the
half-life makes the same data trade.  The threshold crossing alone is not the
entry condition. -/
theorem backtest_entry_filter_counterexample :
    step 2 100 none cBarBad = (none, none) ∧
    backtest_pair [cBarBad, cBarExit] 0 2 100 = [] ∧
    backtest_pair [cBarGood, cBarExit] 0 2 100 ≠ [] := by
  refine ⟨?_, ?_, ?_⟩
  · norm_num [step, cBarBad, is_good_entry]
  · norm_num [backtest_pair, run, step, cBarBad, cBarExit, is_good_entry]
  · norm_num [backtest_pair, run, step, cBarGood, cBarBad, cBarExit, is_good_entry, exitReasonAt]

/-- Claim C1 (amended): from the Flat state at a bar with a defined z-score,
`backtest_pair` enters a long position recording entry date, z-score, both leg
prices and hedge ratio iff `zscore <= -threshold` AND `is_good_entry` passes;
a short entry requires `zscore >= threshold`, `is_good_entry`, and the long
branch not firing; if `is_good_entry` fails, or neither threshold is crossed,
the state stays Flat. -/
theorem backtest_entry_rules (thr cap : ℚ) (b : Bar) (z : ℚ) (hz : b.zscore = some z) :
    (z ≤ -thr → is_good_entry b = true →
      step thr cap none b =
        (some { side := Side.long, entryDate := b.date, entryZscore := z,
                stock1Price := b.price1, stock2Price := b.price2,
                hedgeRatio := b.hedgeRatio }, none)) ∧
    (¬ z ≤ -thr → thr ≤ z → is_good_entry b = true →
      step thr cap none b =
        (some { side := Side.short, entryDate := b.date, entryZscore := z,
                stock1Price := b.price1, stock2Price := b.price2,
                hedgeRatio := b.hedgeRatio }, none)) ∧
    (is_good_entry b = false → step thr cap none b = (none, none)) ∧
    (¬ z ≤ -thr → ¬ thr ≤ z → step thr cap none b = (none, none)) := by
  refine ⟨fun h1 h2 => ?_, fun h1 h2 h3 => ?_, fun h1 => ?_, fun h1 h2 => ?_⟩
  · simp [step, hz, h1, h2]
  · simp [step, hz, h1, h2, h3]
  · simp [step, hz, h1]
  · simp [step, hz, h1, h2]

/-- Witness for C1 (amended): a concrete bar satisfying both conjuncts does
enter long. -/
theorem backtest_entry_rules_witness :
    ((-3:ℚ) ≤ -2) ∧ is_good_entry wBarEntry = true ∧
      step 2 100 none wBarEntry =
        (some { side := Side.long, entryDate := wBarEntry.date, entryZscore := -3,
                stock1Price := wBarEntry.price1, stock2Price := wBarEntry.price2,
                hedgeRatio := wBarEntry.hedgeRatio }, none) := by
  have hg : is_good_entry wBarEntry = true := by norm_num [is_good_entry, wBarEntry]
  exact ⟨by norm_num, hg, (backtest_entry_rules 2 100 wBarEntry (-3) rfl).1 (by norm_num) hg⟩

/-- Claim C5: over a DataFrame with strictly increasing dates, every trade of
`backtest_pair` closes strictly after it opens, and the ledger is pairwise
ordered with each trade exiting strictly before the next one enters — trades
are chronological and non-overlapping (the `Option Position` state makes more
than one open position unrepresentable). -/
theorem backtest_pair_trades_ordered (df : List Bar) (w : ℕ) (thr cap : ℚ)
    (hsorted : List.Pairwise (fun a b => a.date < b.date) df) :
    (∀ t ∈ backtest_pair df w thr cap, t.entryDate < t.exitDate) ∧
    List.Pairwise (fun s t => s.exitDate < t.entryDate) (backtest_pair df w thr cap) := by
  have h := run_ordered thr cap (df.drop w) none
    (hsorted.sublist (List.drop_sublist w df)) (fun p hp => absurd hp (by simp))
  exact ⟨fun t ht => (h.1 t ht).1, h.2⟩

/-- Witness for C5 on a concrete two-bar backtest producing one trade. -/
theorem backtest_pair_trades_ordered_witness :
    List.Pairwise (fun a b => a.date < b.date) [wBarEntry, wBarExit] ∧
    ((∀ t ∈ backtest_pair [wBarEntry, wBarExit] 0 2 100, t.entryDate < t.exitDate) ∧
     List.Pairwise (fun s t => s.exitDate < t.entryDate)
       (backtest_pair [wBarEntry, wBarExit] 0 2 100)) := by
  have hs : List.Pairwise (fun a b => a.date < b.date) [wBarEntry, wBarExit] := by
    norm_num [wBarEntry, wBarExit]
  exact ⟨hs, backtest_pair_trades_ordered [wBarEntry, wBarExit] 0 2 100 hs⟩

/-- Claim C10: every trade of `backtest_pair` under positive capital has a
strictly positive leg-1 allocation, a leg-2 allocation that is zero exactly
when the recorded hedge ratio is zero and positive otherwise, allocations
summing exactly to the input capital (`Total_Capital = capital`), share counts
equal to allocation over entry price per leg, and percent PnL equal to
`pnl / capital * 100`. -/
theorem backtest_pair_trade_capital (df : List Bar) (w : ℕ) (thr cap : ℚ) (hcap : 0 < cap)
    (t : Trade) (ht : t ∈ backtest_pair df w thr cap) :
    0 < t.stock1Capital ∧
    (t.hedgeRatio = 0 → t.stock2Capital = 0) ∧
    (t.hedgeRatio ≠ 0 → 0 < t.stock2Capital) ∧
    t.stock1Capital + t.stock2Capital = cap ∧
    t.totalCapital = cap ∧
    t.stock1Shares = t.stock1Capital / t.entryStock1Price ∧
    t.stock2Shares = t.stock2Capital / t.entryStock2Price ∧
    t.pnlPercent = t.pnl / cap * 100 := by
  obtain ⟨p, b2, z, reason, rfl⟩ := mem_run thr cap (df.drop w) none t ht
  exact mkTrade_cap_props cap p b2 z reason hcap

/-- Witness for C10 on the concrete one-trade backtest. -/
theorem backtest_pair_trade_capital_witness :
    0 < (100:ℚ) ∧ wTrade ∈ backtest_pair [wBarEntry, wBarExit] 0 2 100 ∧
      wTrade.stock1Capital + wTrade.stock2Capital = 100 := by
  have hmem : wTrade ∈ backtest_pair [wBarEntry, wBarExit] 0 2 100 := by
    rw [backtest_eval]; exact List.mem_singleton_self wTrade
  exact ⟨by norm_num, hmem,
    (backtest_pair_trade_capital [wBarEntry, wBarExit] 0 2 100 (by norm_num) wTrade hmem).2.2.2.1⟩

/-- Claim C4: the screener quality gate passes — and the pair is emitted —
iff cointegration p-value <= 0.01, spread ADF p-value <= 0.05, half-life
present in [10, 30], Hurst < 0.5, zero-crossings >= 15, reversion rate >= 75
whenever present, and |current z-score| <= 3.5; the definition itself is the
short-circuiting chain in source order. -/
theorem quality_gate_iff (s : PairStats) :
    quality_gate s = true ↔
      (s.cointPValue ≤ (0.01 : ℚ) ∧ s.spreadAdfPValue ≤ (0.05 : ℚ) ∧
       (∃ hl, s.halfLife = some hl ∧ 10 ≤ hl ∧ hl ≤ 30) ∧
       s.hurst < (0.5 : ℚ) ∧ 15 ≤ s.zeroCrossings ∧
       (∀ r, s.reversionRate = some r → 75 ≤ r) ∧
       |s.currentZscore| ≤ (3.5 : ℚ)) := by
  constructor
  · intro hgate
    simp only [quality_gate] at hgate
    split_ifs at hgate with h1 h2 h3 h4 h5 h6 h7
    refine ⟨not_lt.mp h1, not_lt.mp h2, ?_, not_le.mp h4, not_lt.mp h5, ?_, not_lt.mp h7⟩
    · cases hhl : s.halfLife with
      | none => rw [hhl] at h3; exact absurd rfl h3
      | some hl0 =>
        rw [hhl] at h3
        simp only [half_life_fails, Bool.or_eq_true, decide_eq_true_eq] at h3
        push_neg at h3
        exact ⟨hl0, rfl, h3.1, h3.2⟩
    · intro r hr
      rw [hr] at h6
      simp only [reversion_rate_fails, decide_eq_true_eq] at h6
      exact not_lt.mp h6
  · rintro ⟨h1, h2, ⟨hl0, hhl, hl1, hl2⟩, h4, h5, h6, h7⟩
    simp only [quality_gate, hhl]
    rw [if_neg (not_lt.mpr h1), if_neg (not_lt.mpr h2)]
    have hf : half_life_fails (some hl0) = false := by
      simp [half_life_fails, not_lt.mpr hl1, not_lt.mpr hl2]
    rw [hf, if_neg Bool.false_ne_true]
    rw [if_neg (not_le.mpr h4), if_neg (not_lt.mpr h5)]
    have hg : reversion_rate_fails s.reversionRate = false := by
      cases hrr : s.reversionRate with
      | none => simp [reversion_rate_fails]
      | some r0 => simp [reversion_rate_fails, not_lt.mpr (h6 r0 hrr)]
    rw [hg, if_neg Bool.false_ne_true, if_neg (not_lt.mpr h7)]

/-- Helper: the sum of a negated list. -/
theorem sum_map_neg (l : List ℚ) : (l.map Neg.neg).sum = -l.sum := by
  induction l with
  | nil => simp
  | cons a l ih => simp [ih]; ring

/-- Claim C9: wherever the static OLS hedge-ratio fit is defined, regressing
the negated inputs yields the same slope and the negated intercept. -/
theorem ols_fit_neg (xs ys : List ℚ) (beta intercept : ℚ)
    (h : ols_fit xs ys = some (beta, intercept)) :
    ols_fit (xs.map Neg.neg) (ys.map Neg.neg) = some (beta, -intercept) := by
  have hsx : (xs.map Neg.neg).sum = -xs.sum := sum_map_neg xs
  have hsy : (ys.map Neg.neg).sum = -ys.sum := sum_map_neg ys
  have hsxx : ((xs.map Neg.neg).map (fun v => v * v)).sum = (xs.map (fun v => v * v)).sum := by
    have hc : ((fun v : ℚ => v * v) ∘ Neg.neg) = (fun v : ℚ => v * v) := by
      funext v
      simp
    rw [List.map_map, hc]
  have hzip : List.zipWith (fun a b => a * b) (xs.map Neg.neg) (ys.map Neg.neg)
      = List.zipWith (fun a b => a * b) xs ys := by
    rw [List.zipWith_map]
    congr 1
    funext a b
    ring
  simp only [ols_fit, List.length_map, hsx, hsy, hsxx, hzip] at h ⊢
  by_cases hdet : (xs.length : ℚ) * (xs.map (fun v => v * v)).sum - xs.sum * xs.sum = 0
  · rw [if_pos hdet] at h
    exact absurd h (by simp)
  · rw [if_neg hdet] at h
    have hdet2 : ¬((xs.length : ℚ) * (xs.map (fun v => v * v)).sum - -xs.sum * -xs.sum = 0) := by
      intro hc
      have hr : -xs.sum * -xs.sum = xs.sum * xs.sum := by ring
      rw [hr] at hc
      exact hdet hc
    rw [if_neg hdet2]
    rw [Option.some_inj, Prod.mk.injEq] at h
    obtain ⟨hb, hi⟩ := h
    rw [Option.some_inj, Prod.mk.injEq]
    constructor
    · rw [← hb]
      ring
    · rw [← hi]
      ring

/-- Witness for C9 at a concrete regression. -/
theorem ols_fit_neg_witness :
    ols_fit [1, 2] [1, 3] = some (2, -1) ∧
    ols_fit ([1, 2].map Neg.neg) ([1, 3].map Neg.neg) = some (2, 1) := by
  have h1 : ols_fit [1, 2] [1, 3] = some (2, -1) := by norm_num [ols_fit]
  have h2 := ols_fit_neg [1, 2] [1, 3] 2 (-1) h1
  norm_num at h2
  exact ⟨h1, h2⟩

/-- Helper: lookup in an association list built over a key list. -/
theorem lookup_map_mk (g : String → PyVal) (l : List String) (k : String) :
    (l.map (fun a => (a, g a))).lookup k = if k ∈ l then some (g k) else none := by
  induction l with
  | nil => simp
  | cons a l ih =>
    by_cases hka : k = a
    · subst hka
      simp [List.lookup]
    · have hbeq : (k == a) = false := by simpa using hka
      simp only [List.map_cons, List.lookup, hbeq]
      rw [ih]
      simp [List.mem_cons, hka]

/-- Helper: a successful lookup means the key occurs. -/
theorem lookup_some_mem_keys (r : PyRecord) (k : String) (v : PyVal)
    (h : r.lookup k = some v) : k ∈ r.map Prod.fst := by
  induction r with
  | nil => simp [List.lookup] at h
  | cons kv r ih =>
    by_cases hk : k = kv.1
    · simp [hk]
    · have hbeq : (k == kv.1) = false := by simpa using hk
      simp only [List.lookup, hbeq] at h
      simp [ih h]

/-- Counterexample for claim C8: `Ticker1` is a non-numeric field of the first
record, yet the cross-pair average does not assign it the first record value —
it is absent from the output entirely. -/
theorem average_metrics_ticker_counterexample :
    calculate_average_metrics [cRecA, cRecB] = [("M", PyVal.num 3)] ∧
    (calculate_average_metrics [cRecA, cRecB]).lookup "Ticker1" = none := by
  have h0 : calculate_average_metrics [cRecA, cRecB]
      = [("M", PyVal.num (([2, 4] : List ℚ).sum / (([2, 4] : List ℚ).length : ℚ)))] := rfl
  constructor
  · rw [h0]
    norm_num
  · rw [h0]
    rfl

/-- Claim C8 (amended): for a non-empty batch, `Ticker1` and `Ticker2` are
omitted from the output; any other field of the first record is passed through
unchanged when its first-record value is non-numeric, and is assigned the mean
of the valid (non-zero, non-None, non-infinite) values when numeric, with 0
when no value qualifies. -/
theorem calculate_average_metrics_lookup (r0 : PyRecord) (rest : List PyRecord) :
    (calculate_average_metrics (r0 :: rest)).lookup "Ticker1" = none ∧
    (calculate_average_metrics (r0 :: rest)).lookup "Ticker2" = none ∧
    ∀ k v0, k ≠ "Ticker1" → k ≠ "Ticker2" → r0.lookup k = some v0 →
      (v0.isNumeric = false →
        (calculate_average_metrics (r0 :: rest)).lookup k = some v0) ∧
      (v0.isNumeric = true →
        (calculate_average_metrics (r0 :: rest)).lookup k =
          some (PyVal.num
            (if 0 < (valid_values (r0 :: rest) k).length then
              (valid_values (r0 :: rest) k).sum / (valid_values (r0 :: rest) k).length
            else 0))) := by
  simp only [calculate_average_metrics]
  rw [lookup_map_mk, lookup_map_mk]
  refine ⟨?_, ?_, ?_⟩
  · rw [if_neg]
    intro hmem
    have h2 := (List.mem_filter.mp hmem).2
    simp at h2
  · rw [if_neg]
    intro hmem
    have h2 := (List.mem_filter.mp hmem).2
    simp at h2
  · intro k v0 hk1 hk2 hv0
    have hmem : k ∈ (r0.map Prod.fst).filter (fun k => ¬ (k = "Ticker1" ∨ k = "Ticker2")) := by
      refine List.mem_filter.mpr ⟨lookup_some_mem_keys r0 k v0 hv0, ?_⟩
      simp [hk1, hk2]
    constructor
    · intro hnum
      rw [lookup_map_mk, if_pos hmem, hv0]
      simp [hnum]
    · intro hnum
      rw [lookup_map_mk, if_pos hmem, hv0]
      simp only [Option.getD_some, hnum, if_true]
      split_ifs <;> rfl

/-- Witness for C8 (amended): the numeric field M averages to 3. -/
theorem calculate_average_metrics_lookup_witness :
    ("M" ≠ "Ticker1" ∧ "M" ≠ "Ticker2" ∧ cRecA.lookup "M" = some (PyVal.num 2)) ∧
    (calculate_average_metrics [cRecA, cRecB]).lookup "M" = some (PyVal.num 3) := by
  have hlk : cRecA.lookup "M" = some (PyVal.num 2) := by rfl
  have h := ((calculate_average_metrics_lookup cRecA [cRecB]).2.2 "M" (PyVal.num 2)
    (by decide) (by decide) hlk).2 rfl
  have hv : valid_values [cRecA, cRecB] "M" = [2, 4] := rfl
  rw [hv] at h
  norm_num at h
  exact ⟨⟨by decide, by decide, hlk⟩, h⟩

/-- Helper: a fold with two conditional counters computes the two `countP`. -/
theorem foldl_count (p q : ℕ → Bool) (l : List ℕ) :
    ∀ (a b : ℕ),
      l.foldl (fun acc i =>
          if p i then (acc.1 + 1, if q i then acc.2 + 1 else acc.2) else acc) (a, b)
        = (a + l.countP p, b + l.countP (fun i => p i && q i)) := by
  induction l with
  | nil => intro a b; simp
  | cons x l ih =>
    intro a b
    rw [List.foldl_cons]
    by_cases hp : p x = true
    · by_cases hq : q x = true
      · rw [if_pos hp, if_pos hq, ih, List.countP_cons_of_pos p l hp,
          List.countP_cons_of_pos (fun i => p i && q i) l (by simp [hp, hq])]
        refine Prod.ext ?_ ?_ <;> omega
      · have hq2 : q x = false := by simpa using hq
        rw [if_pos hp, if_neg hq, ih, List.countP_cons_of_pos p l hp,
          List.countP_cons_of_neg (fun i => p i && q i) l (by simp [hq2])]
        refine Prod.ext ?_ ?_ <;> omega
    · have hp2 : p x = false := by simpa using hp
      rw [if_neg hp, ih, List.countP_cons_of_neg p l (by simp [hp2]),
        List.countP_cons_of_neg (fun i => p i && q i) l (by simp [hp2])]

/-- Helper: `any` over a take-of-drop slice equals `any` over the index
range. -/
theorem any_take_drop (zs : List (Option ℚ)) (f : Option ℚ → Bool) :
    ∀ (n s : ℕ),
      ((zs.drop s).take n).any f
        = (List.range' s n).any (fun j =>
            match zs[j]? with
            | some o => f o
            | none => false) := by
  intro n
  induction n with
  | zero => intro s; simp
  | succ n ih =>
    intro s
    by_cases hs : s < zs.length
    · rw [List.drop_eq_getElem_cons hs, List.take_succ_cons, List.range'_succ]
      simp only [List.any_cons]
      rw [ih (s + 1), List.getElem?_eq_getElem hs]
    · have hle : zs.length ≤ s := le_of_not_lt hs
      rw [List.drop_eq_nil_of_le hle]
      simp only [List.take_nil, List.any_nil]
      symm
      rw [List.any_eq_false]
      intro j hj
      have hj2 : s ≤ j := (List.mem_range'_1.mp hj).1
      rw [List.getElem?_eq_none (le_trans hle hj2)]
      simp

/-- Helper: the slice-based and index-based success tests agree. -/
theorem succeedsAtCode_eq_spec (zs : List (Option ℚ)) (i : ℕ) :
    succeedsAtCode zs i = succeedsAtSpec zs i := by
  unfold succeedsAtCode succeedsAtSpec revSuccess futureWindow
  cases h : zs[i]? with
  | none => rfl
  | some o =>
    cases o with
    | none => rfl
    | some z =>
      have e1 := any_take_drop zs (fun o => match o with
        | some v => decide (v < (0.5 : ℚ))
        | none => false) 20 (i + 1)
      have e2 := any_take_drop zs (fun o => match o with
        | some v => decide ((-0.5 : ℚ) < v)
        | none => false) 20 (i + 1)
      rw [e1, e2]
      have h1 : (fun j : ℕ => match zs[j]? with
          | some o => (match o with
            | some v => decide (v < (0.5 : ℚ))
            | none => false)
          | none => false)
          = (fun j : ℕ => match zs[j]? with
            | some (some v) => decide (v < (0.5 : ℚ))
            | _ => false) := by
        funext j
        rcases zs[j]? with _ | (_ | v) <;> rfl
      have h2 : (fun j : ℕ => match zs[j]? with
          | some o => (match o with
            | some v => decide ((-0.5 : ℚ) < v)
            | none => false)
          | none => false)
          = (fun j : ℕ => match zs[j]? with
            | some (some v) => decide ((-0.5 : ℚ) < v)
            | _ => false) := by
        funext j
        rcases zs[j]? with _ | (_ | v) <;> rfl
      rw [h1, h2]

/-- Claim C7 (amended): the reversion rate of the source equals the claimed
successes-over-occurrences percentage once occurrences are restricted to the
loop range `window <= i < len - 10`. -/
theorem reversion_rate_eq_amended (zs : List (Option ℚ)) (window : ℕ) (thr : ℚ) :
    reversion_rate zs window thr = reversion_rate_amended zs window thr := by
  unfold reversion_rate reversion_rate_amended
  have hc : revCounts zs window thr
      = ((List.range' window (zs.length - 10 - window)).countP (fun i => occursAt zs thr i),
         (List.range' window (zs.length - 10 - window)).countP
           (fun i => occursAt zs thr i && succeedsAtCode zs i)) := by
    unfold revCounts
    rw [foldl_count]
    simp
  rw [hc]
  have hs : (fun i => occursAt zs thr i && succeedsAtCode zs i)
      = (fun i => occursAt zs thr i && succeedsAtSpec zs i) := by
    funext i
    rw [succeedsAtCode_eq_spec]
  rw [hs]

/-- Counterexample for claim C7 as stated: a single bar beyond the threshold
sits inside the final 10 bars, so the source counts no occurrence and returns
`None`, while the claimed every-bar definition counts one occurrence and
returns 0%. -/
theorem reversion_rate_range_counterexample :
    reversion_rate [some 3] 0 2 = none ∧ reversion_rate_claim [some 3] 2 = some 0 := by
  constructor
  · rfl
  · have h2 : reversion_rate_claim [some 3] 2
        = some (((0 : ℕ) : ℚ) / ((1 : ℕ) : ℚ) * 100) := rfl
    rw [h2]
    norm_num

/-- Claim C3: `calculate_cagr` returns 0 when the final value
`initial_capital + total_pnl` is not positive, but
`calculate_annualized_return` has no such guard: at total PnL -200 on capital
100 over 1461 days it evaluates `(-1) ** (1/4)`, a complex number with
nonzero imaginary part — not the real 0 the claim requires. -/
theorem annualized_return_complex_at_negative_final_value :
    (calculate_annualized_return (-200) 100 [0, 1461]).im ≠ 0 ∧
    calculate_cagr (-200) 100 [0, 1461] = 0 := by
  have h0 : ¬((100 : ℝ) ≤ 0 ∨ ([0, 1461] : List ℤ) = []) := by
    rw [not_or]
    exact ⟨by norm_num, by simp⟩
  have hday : (([0, 1461] : List ℤ).getLast?.getD 0 - ([0, 1461] : List ℤ).head?.getD 0)
      = (1461 : ℤ) := rfl
  constructor
  · unfold calculate_annualized_return
    rw [if_neg h0, hday, if_neg (by norm_num : ¬((1461 : ℤ) ≤ 0))]
    have hb : (1 + (-200 : ℝ) / 100) = -1 := by norm_num
    have he : (1 / (((1461 : ℤ) : ℝ) / 365.25)) = (1 / 4 : ℝ) := by push_cast; norm_num
    rw [hb, he]
    have hcpow : pyFloatPow (-1) (1 / 4 : ℝ) = Complex.exp ((Real.pi / 4 : ℝ) * Complex.I) := by
      unfold pyFloatPow
      rw [show ((-1 : ℝ) : ℂ) = (-1 : ℂ) by push_cast; ring]
      rw [Complex.cpow_def_of_ne_zero (by norm_num : (-1 : ℂ) ≠ 0), Complex.log_neg_one]
      congr 1
      push_cast
      ring
    rw [hcpow]
    have him : ((Complex.exp ((Real.pi / 4 : ℝ) * Complex.I) - 1) * 100).im
        = Real.sin (Real.pi / 4) * 100 := by
      rw [Complex.mul_im, Complex.sub_im, Complex.sub_re, Complex.exp_ofReal_mul_I_im,
        Complex.exp_ofReal_mul_I_re, Complex.one_im, Complex.one_re, Complex.im_ofNat,
        Complex.re_ofNat]
      ring
    rw [him]
    have hs : 0 < Real.sin (Real.pi / 4) :=
      Real.sin_pos_of_pos_of_lt_pi (by positivity) (by linarith [Real.pi_pos])
    exact ne_of_gt (mul_pos hs (by norm_num))
  · unfold calculate_cagr
    rw [if_neg h0, hday, if_neg (by norm_num : ¬((1461 : ℤ) ≤ 0))]
    rw [if_pos (Or.inl (by norm_num : (100 : ℝ) + -200 ≤ 0))]

/-- Claim C2: on a zero-trade ledger `generate_results` does not report zero
metrics — it raises `KeyError` for the `Win` column of the column-less empty
trades DataFrame. -/
theorem generate_results_zero_trades_raises (t1 t2 : String) (capital : ℚ)
    (dates : List ℤ) (hr fz : PyVal) :
    generate_results t1 t2 [] capital dates hr fz = Except.error "KeyError: Win" := rfl

end PairTrading
